import Mathlib

/-!
Verification of `update_dd.py`: a script that fetches hourly temperature
readings for weather stations from a remote BMON API, aggregates them into
monthly heating degree-day (HDD) records with a data-coverage fraction
(`dd_for_site`), and merges qualifying new months (coverage strictly above
`MIN_COVERAGE`) into a persisted dataset sorted by (station, month).

The embedding below models timestamps as explicit calendar structures,
temperatures and degree-days as rationals (the script's real arithmetic),
pandas month resampling as explicit month buckets from the earliest to the
latest reading month (empty buckets carry no mean value, the script's NaN),
and the remote HTTP call as an explicit function argument.
-/

/-- A calendar timestamp at hour granularity (models a Python datetime whose
minutes/seconds are always zero in this program). -/
structure DT where
  year : Nat
  month : Nat
  day : Nat
  hour : Nat
deriving DecidableEq

/-- Gregorian leap-year rule. -/
def isLeap (y : Nat) : Bool := (y % 4 == 0 && y % 100 != 0) || y % 400 == 0

/-- Number of days in a calendar month. -/
def daysInMonth (y m : Nat) : Nat :=
  if m = 2 then (if isLeap y then 29 else 28)
  else if m = 4 ∨ m = 6 ∨ m = 9 ∨ m = 11 then 30
  else 31

/-- A structurally valid timestamp. -/
def validDT (d : DT) : Prop :=
  1 ≤ d.month ∧ d.month ≤ 12 ∧ 1 ≤ d.day ∧ d.day ≤ daysInMonth d.year d.month ∧ d.hour < 24

instance (d : DT) : Decidable (validDT d) := by unfold validDT; infer_instance

/-- Advance a timestamp by one calendar day (time of day is preserved,
as with Python's `timedelta(days=1)`). -/
def nextDay (d : DT) : DT :=
  if d.day < daysInMonth d.year d.month then ⟨d.year, d.month, d.day + 1, d.hour⟩
  else if d.month < 12 then ⟨d.year, d.month + 1, 1, d.hour⟩
  else ⟨d.year + 1, 1, 1, d.hour⟩

/-- `d + timedelta(days=n)`. -/
def addDays (d : DT) (n : Nat) : DT := nextDay^[n] d

/-- `d.replace(day=1, hour=0, minute=0, second=0, microsecond=0)`:
the first instant of `d`'s month. -/
def monthFloor (d : DT) : DT := ⟨d.year, d.month, 1, 0⟩

/-- The first instant of the month immediately following `d`'s month. -/
def nextMonthStart (d : DT) : DT :=
  if d.month < 12 then ⟨d.year, d.month + 1, 1, 0⟩ else ⟨d.year + 1, 1, 1, 0⟩

/-- Linearize a (year, month) pair, counting months since year 0. -/
def monthIndex (y m : Nat) : Nat := y * 12 + (m - 1)

/-- Month index of a timestamp. -/
def dtMonthIndex (d : DT) : Nat := monthIndex d.year d.month

/-- Inverse of `monthIndex`: recover the (year, month) pair. -/
def monthOfIndex (i : Nat) : Nat × Nat := (i / 12, i % 12 + 1)

/-- Chronological comparison of timestamps (lexicographic on the fields),
the order pandas uses for timestamp `max` and sorting. -/
def dtLe (a b : DT) : Bool :=
  decide (a.year < b.year) ||
    (a.year == b.year &&
      (decide (a.month < b.month) ||
        (a.month == b.month &&
          (decide (a.day < b.day) || (a.day == b.day && decide (a.hour ≤ b.hour))))))

/-- An hourly temperature reading from the BMON API (a `[ts, temp]` pair). -/
structure Reading where
  ts : DT
  temp : ℚ
deriving DecidableEq

/-- Month index of a reading's timestamp. -/
def tsMonthIdx (r : Reading) : Nat := dtMonthIndex r.ts

/-- The temperatures of the readings falling in calendar month (y, m):
the month group of the DataFrame. -/
def monthTemps (readings : List Reading) (y m : Nat) : List ℚ :=
  (readings.filter (fun r => r.ts.year == y && r.ts.month == m)).map (fun r => r.temp)

/-- Per-hour degree-day value: `(base - x)/24.0 if x < base else 0.0`. -/
def hddHour (base : ℚ) (t : ℚ) : ℚ := if t < base then (base - t) / 24 else 0

/-- Mean of a list of rationals; `none` models pandas' NaN mean of an
empty resampling bucket. -/
def listMean (xs : List ℚ) : Option ℚ :=
  match xs with
  | [] => none
  | _ :: _ => some (xs.sum / (xs.length : ℚ))

/-- Fold computing the least month index among a reading list's indices. -/
def loIdx : List Nat → Nat → Nat
  | [], a => a
  | x :: xs, a => loIdx xs (min a x)

/-- Fold computing the greatest month index among a reading list's indices. -/
def hiIdx : List Nat → Nat → Nat
  | [], a => a
  | x :: xs, a => hiIdx xs (max a x)

/-- One output record of `dd_for_site`: the `dfm` DataFrame row for one
month bucket.  `hdd60`/`hdd65` are `none` exactly for empty buckets
(pandas NaN). -/
structure MonthRow where
  month : DT
  hdd60 : Option ℚ
  hdd65 : Option ℚ
  coverage : ℚ
deriving DecidableEq

/-- The `dfm` row for month bucket `ym = (year, month)`: coverage is
count-present over `days_in_month * 24`, and each degree-day value is the
mean per-hour value over present readings scaled by `days_in_month * 24`.
The emitted `month` key is the first day of the month. -/
def rowFor (readings : List Reading) (ym : Nat × Nat) : MonthRow :=
  let temps := monthTemps readings ym.1 ym.2
  let totalHours : ℚ := ((daysInMonth ym.1 ym.2 * 24 : Nat) : ℚ)
  { month := ⟨ym.1, ym.2, 1, 0⟩
    hdd60 := (listMean (temps.map (hddHour 60))).map (fun v => v * totalHours)
    hdd65 := (listMean (temps.map (hddHour 65))).map (fun v => v * totalHours)
    coverage := (temps.length : ℚ) / totalHours }

/-- The month buckets produced by `resample('1M')`: every calendar month
from the earliest reading's month through the latest reading's month,
including intermediate months that have no readings. -/
def bucketMonths (readings : List Reading) : List (Nat × Nat) :=
  match readings.map tsMonthIdx with
  | [] => []
  | x :: xs =>
    (List.range (hiIdx xs x + 1 - loIdx xs x)).map (fun k => monthOfIndex (loIdx xs x + k))

/-- The full `dfm` table returned on success, one row per month bucket. -/
def dd_rows (readings : List Reading) : List MonthRow :=
  (bucketMonths readings).map (rowFor readings)

/-- The decoded JSON response of the BMON readings API.  `readings` is
`resp['data']['readings']` (meaningful when `status == 'success'`);
`errPayload` is `str(resp['data'])`, the payload surfaced on failure. -/
structure BmonResponse where
  status : String
  readings : List Reading
  errPayload : String
deriving DecidableEq

/-- The BMON sensor id for a station: `'{}_temp'.format(stn)`. -/
def sensorId (stn : String) : String := stn ++ "_temp"

/-- `dd_for_site(stn, start_date)`.  The remote HTTP GET is modelled by the
`remote` argument, which may fail (network error) or return a decoded
response.  The request starts at the first instant of `start_date`'s month;
a non-success status raises `ValueError(str(resp['data']))`, modelled as
`Except.error`. -/
def dd_for_site (remote : String → DT → Except String BmonResponse)
    (stn : String) (start_date : DT) : Except String (List MonthRow) :=
  match remote (sensorId stn) (monthFloor start_date) with
  | .error e => .error e
  | .ok resp =>
    if resp.status = "success" then .ok (dd_rows resp.readings)
    else .error resp.errPayload

/-- One persisted record of the degree-day DataFrame: station index value
plus the `month`, `hdd60`, `hdd65` columns. -/
structure DataRow where
  station : String
  month : DT
  hdd60 : Option ℚ
  hdd65 : Option ℚ
deriving DecidableEq

/-- Minimum fraction of the hours in a month that must have data in order
to include the month. -/
def MIN_COVERAGE : ℚ := 0.7

/-- Lexicographic comparison of character lists (the order of Python
string comparison). -/
def charListLt : List Char → List Char → Bool
  | [], [] => false
  | [], _ :: _ => true
  | _ :: _, [] => false
  | x :: xs, y :: ys => decide (x < y) || (x == y && charListLt xs ys)

/-- Strict lexicographic order on strings. -/
def strLt (a b : String) : Bool := charListLt a.data b.data

/-- Row comparison used by `sort_values(['station', 'month'])`. -/
def rowLe (a b : DataRow) : Bool :=
  if a.station = b.station then dtLe a.month b.month else strLt a.station b.station

/-- `df_exist.index.unique()`: the distinct stations in first-occurrence
order. -/
def uniqueStations (df : List DataRow) : List String :=
  df.foldl (fun acc r => if r.station ∈ acc then acc else acc ++ [r.station]) []

/-- `months.max()` over a nonempty collection `d :: months`. -/
def monthMax (d : DT) (months : List DT) : DT :=
  months.foldl (fun a x => if dtLe a x then x else a) d

/-- Reshape one accepted `dfm` row into a persisted record for station
`stn` (the `coverage` column is dropped). -/
def toDataRow (stn : String) (r : MonthRow) : DataRow :=
  { station := stn, month := r.month, hdd60 := r.hdd60, hdd65 := r.hdd65 }

/-- The body of the per-station `try` block: find the station's last
recorded month, over-shoot by 32 days, fetch degree days from there, and
keep the months with `coverage > MIN_COVERAGE` as persisted records.
`.error` models any exception escaping the block (including `.max()` on a
station with no rows). -/
def processStation (remote : String → DT → Except String BmonResponse)
    (df_exist : List DataRow) (stn : String) : Except String (List DataRow) :=
  match (df_exist.filter (fun r => r.station == stn)).map (fun r => r.month) with
  | [] => .error "KeyError"
  | d :: ms =>
    (dd_for_site remote stn (addDays (monthMax d ms) 32)).map
      (fun dfm => (dfm.filter (fun r => decide (MIN_COVERAGE < r.coverage))).map (toDataRow stn))

/-- The rows a station contributes to `new_dfs`: none when its processing
raised (the `except` branch). -/
def newRowsFor (remote : String → DT → Except String BmonResponse)
    (df_exist : List DataRow) (stn : String) : List DataRow :=
  (processStation remote df_exist stn).toOption.getD []

/-- All staged new records of one run (`new_dfs`, flattened). -/
def stagedRows (remote : String → DT → Except String BmonResponse)
    (df_exist : List DataRow) : List DataRow :=
  ((uniqueStations df_exist).map (newRowsFor remote df_exist)).flatten

/-- The console line printed for one station. -/
def stationLog (stn : String) (outcome : Except String (List DataRow)) : String :=
  match outcome with
  | .error e => "Processing " ++ stn ++ ": " ++ e
  | .ok rows =>
    "Processing " ++ stn ++ ": " ++
      (if rows.length = 0 then "" else toString rows.length ++ " new months")

/-- The console output of one run, one line per station. -/
def runLog (remote : String → DT → Except String BmonResponse)
    (df_exist : List DataRow) : List String :=
  (uniqueStations df_exist).map (fun stn => stationLog stn (processStation remote df_exist stn))

/-- `df_final`: the existing records concatenated with all staged new
records, sorted by (station, month). -/
def df_final (remote : String → DT → Except String BmonResponse)
    (df_exist : List DataRow) : List DataRow :=
  (df_exist ++ stagedRows remote df_exist).mergeSort rowLe

/-- One full run of the script: the persisted dataset and console log. -/
def runMerger (remote : String → DT → Except String BmonResponse)
    (df_exist : List DataRow) : List DataRow × List String :=
  (df_final remote df_exist, runLog remote df_exist)

/-- A remote source backed by a fixed store of readings per sensor that
honors the `start_ts` parameter: it returns, with success status, exactly
the stored readings from the requested month onward. -/
def honestRemote (truth : String → List Reading) :
    String → DT → Except String BmonResponse :=
  fun sid start =>
    .ok { status := "success"
          readings := (truth sid).filter (fun r => decide (dtMonthIndex start ≤ tsMonthIdx r))
          errPayload := "" }

/-- A timestamp that is the first instant of a valid calendar month (the
form every `month` value in the persisted dataset takes). -/
def isMonthStart (d : DT) : Prop := validDT d ∧ d.day = 1 ∧ d.hour = 0

instance (d : DT) : Decidable (isMonthStart d) := by unfold isMonthStart; infer_instance

/-- At most one record per (station, month): the persisted dataset's key
uniqueness invariant. -/
def keyUnique (df : List DataRow) : Prop :=
  (df.map (fun r => (r.station, r.month))).Nodup

instance (df : List DataRow) : Decidable (keyUnique df) := by unfold keyUnique; infer_instance

/-- A two-reading store exercising the aggregator across a month gap: one
February 2018 reading and one April 2018 reading, nothing in between. -/
def sparseStore : String → List Reading :=
  fun _ => [⟨⟨2018, 2, 3, 5⟩, 50⟩, ⟨⟨2018, 4, 10, 0⟩, 55⟩]

/-- A store with no readings at all. -/
def emptyStore : String → List Reading := fun _ => []

/-- A remote that fails with a transport error for station PAXX's sensor and
returns an empty successful response for every other sensor. -/
def mixedRemote : String → DT → Except String BmonResponse :=
  fun sid start =>
    if sid = "PAXX_temp" then .error "ConnectionError" else honestRemote emptyStore sid start

/-- A two-station dataset exercising the merger. -/
def twoStationDf : List DataRow :=
  [⟨"PAXX", ⟨2018, 2, 1, 0⟩, some 100, some 120⟩,
   ⟨"PAED", ⟨2018, 3, 1, 0⟩, some 90, some 110⟩]

/-- A one-station dataset exercising the merger. -/
def oneStationDf : List DataRow :=
  [⟨"PAED", ⟨2018, 2, 1, 0⟩, some 100, some 120⟩]

/-- Decidable equality for `Except` results (element-wise). -/
instance {e2 a2 : Type} [DecidableEq e2] [DecidableEq a2] : DecidableEq (Except e2 a2) :=
  fun a b =>
    match a, b with
    | .ok x, .ok y =>
      if h : x = y then isTrue (by rw [h]) else isFalse (fun hc => by cases hc; exact h rfl)
    | .error x, .error y =>
      if h : x = y then isTrue (by rw [h]) else isFalse (fun hc => by cases hc; exact h rfl)
    | .ok _, .error _ => isFalse (fun hc => by cases hc)
    | .error _, .ok _ => isFalse (fun hc => by cases hc)

/-- A response with a failure status and an error payload. -/
def failResp : BmonResponse := ⟨"error", [], "sensor not found"⟩

/-- A remote whose response always carries a failure status. -/
def failRemote : String → DT → Except String BmonResponse := fun _ _ => .ok failResp

/-! ### Order lemmas for `dtLe`, `charListLt`, `strLt`, `rowLe` -/

theorem dtLe_iff (a b : DT) : dtLe a b = true ↔
    (a.year < b.year ∨ (a.year = b.year ∧
      (a.month < b.month ∨ (a.month = b.month ∧
        (a.day < b.day ∨ (a.day = b.day ∧ a.hour ≤ b.hour)))))) := by
  simp [dtLe]

theorem dtLe_refl (a : DT) : dtLe a a = true := by
  rw [dtLe_iff]; omega

theorem dtLe_total (a b : DT) : dtLe a b = true ∨ dtLe b a = true := by
  rw [dtLe_iff, dtLe_iff]; omega

theorem dtLe_trans (a b c : DT) (h1 : dtLe a b = true) (h2 : dtLe b c = true) :
    dtLe a c = true := by
  rw [dtLe_iff] at h1 h2 ⊢; omega

theorem charListLt_cons (x y : Char) (xs ys : List Char) :
    charListLt (x :: xs) (y :: ys) = true ↔ (x < y ∨ (x = y ∧ charListLt xs ys = true)) := by
  simp [charListLt]

theorem charListLt_trans : ∀ (a b c : List Char),
    charListLt a b = true → charListLt b c = true → charListLt a c = true
  | [], [], _, h1, _ => by simp [charListLt] at h1
  | [], _ :: _, [], _, h2 => by simp [charListLt] at h2
  | [], _ :: _, _ :: _, _, _ => by simp [charListLt]
  | _ :: _, [], _, h1, _ => by simp [charListLt] at h1
  | _ :: _, _ :: _, [], _, h2 => by simp [charListLt] at h2
  | x :: xs, y :: ys, z :: zs, h1, h2 => by
    rw [charListLt_cons] at h1 h2 ⊢
    rcases h1 with h1 | ⟨rfl, h1⟩
    · rcases h2 with h2 | ⟨rfl, h2⟩
      · exact Or.inl (lt_trans h1 h2)
      · exact Or.inl h1
    · rcases h2 with h2 | ⟨rfl, h2⟩
      · exact Or.inl h2
      · exact Or.inr ⟨rfl, charListLt_trans xs ys zs h1 h2⟩

theorem charListLt_trichotomy : ∀ (a b : List Char),
    charListLt a b = true ∨ a = b ∨ charListLt b a = true
  | [], [] => Or.inr (Or.inl rfl)
  | [], _ :: _ => Or.inl (by simp [charListLt])
  | _ :: _, [] => Or.inr (Or.inr (by simp [charListLt]))
  | x :: xs, y :: ys => by
    rcases lt_trichotomy x y with h | rfl | h
    · exact Or.inl ((charListLt_cons _ _ _ _).2 (Or.inl h))
    · rcases charListLt_trichotomy xs ys with h | rfl | h
      · exact Or.inl ((charListLt_cons _ _ _ _).2 (Or.inr ⟨rfl, h⟩))
      · exact Or.inr (Or.inl rfl)
      · exact Or.inr (Or.inr ((charListLt_cons _ _ _ _).2 (Or.inr ⟨rfl, h⟩)))
    · exact Or.inr (Or.inr ((charListLt_cons _ _ _ _).2 (Or.inl h)))

theorem charListLt_irrefl : ∀ (a : List Char), charListLt a a = false
  | [] => rfl
  | x :: xs => by simp [charListLt, charListLt_irrefl xs]

theorem strLt_irrefl (a : String) : strLt a a = false := charListLt_irrefl a.data

theorem strLt_trichotomy (a b : String) : strLt a b = true ∨ a = b ∨ strLt b a = true := by
  rcases charListLt_trichotomy a.data b.data with h | h | h
  · exact Or.inl h
  · refine Or.inr (Or.inl ?_)
    cases a; cases b; exact congrArg String.mk h
  · exact Or.inr (Or.inr h)

theorem strLt_trans (a b c : String) (h1 : strLt a b = true) (h2 : strLt b c = true) :
    strLt a c = true :=
  charListLt_trans a.data b.data c.data h1 h2

theorem rowLe_total (a b : DataRow) : (rowLe a b || rowLe b a) = true := by
  simp only [Bool.or_eq_true]
  by_cases he : a.station = b.station
  · rw [rowLe, if_pos he, rowLe, if_pos he.symm]
    exact dtLe_total a.month b.month
  · rw [rowLe, if_neg he, rowLe, if_neg (fun h => he h.symm)]
    rcases strLt_trichotomy a.station b.station with h | h | h
    · exact Or.inl h
    · exact absurd h he
    · exact Or.inr h

theorem rowLe_trans (a b c : DataRow) (h1 : rowLe a b = true) (h2 : rowLe b c = true) :
    rowLe a c = true := by
  unfold rowLe at h1 h2 ⊢
  by_cases hab : a.station = b.station <;> by_cases hbc : b.station = c.station
  · rw [if_pos hab] at h1
    rw [if_pos hbc] at h2
    rw [if_pos (hab.trans hbc)]
    exact dtLe_trans _ _ _ h1 h2
  · rw [if_neg (hab ▸ hbc)]
    rw [if_neg hbc] at h2
    exact hab ▸ h2
  · rw [if_neg (fun h => hab (h.trans hbc.symm))]
    rw [if_neg hab] at h1
    exact hbc ▸ h1
  · rw [if_neg hab] at h1
    rw [if_neg hbc] at h2
    by_cases hac : a.station = c.station
    · exfalso
      have h2x : strLt b.station a.station = true := hac ▸ h2
      have hx : strLt a.station a.station = true := strLt_trans _ _ _ h1 h2x
      rw [strLt_irrefl] at hx
      exact Bool.false_ne_true hx
    · rw [if_neg hac]
      exact strLt_trans _ _ _ h1 h2

/-! ### Calendar arithmetic lemmas -/

theorem daysInMonth_ge (y m : Nat) : 28 ≤ daysInMonth y m := by
  unfold daysInMonth
  split
  · split <;> omega
  · split <;> omega

theorem daysInMonth_le (y m : Nat) : daysInMonth y m ≤ 31 := by
  unfold daysInMonth
  split
  · split <;> omega
  · split <;> omega

theorem addDays_within : ∀ (n y m day h : Nat), day + n ≤ daysInMonth y m →
    addDays ⟨y, m, day, h⟩ n = ⟨y, m, day + n, h⟩
  | 0, y, m, day, h, _ => rfl
  | n + 1, y, m, day, h, hle => by
    have hlt : day < daysInMonth y m := by omega
    have hstep : nextDay ⟨y, m, day, h⟩ = ⟨y, m, day + 1, h⟩ := by
      simp [nextDay, hlt]
    have hout : addDays ⟨y, m, day, h⟩ (n + 1) = addDays ⟨y, m, day + 1, h⟩ n := by
      unfold addDays
      rw [Function.iterate_succ_apply, hstep]
    rw [hout, addDays_within n y m (day + 1) h (by omega)]
    congr 1
    omega

theorem nextDay_lastDay (y m d0 h0 h : Nat) :
    nextDay ⟨y, m, daysInMonth y m, h⟩ =
      ⟨(nextMonthStart ⟨y, m, d0, h0⟩).year, (nextMonthStart ⟨y, m, d0, h0⟩).month, 1, h⟩ := by
  unfold nextDay nextMonthStart
  by_cases hm : m < 12 <;> simp [hm]

theorem addDays_32 (d : DT) (hv : validDT d) (h1 : d.day = 1) :
    addDays d 32 =
      ⟨(nextMonthStart d).year, (nextMonthStart d).month,
        33 - daysInMonth d.year d.month, d.hour⟩ := by
  obtain ⟨y, m, dday, hr⟩ := d
  simp only at h1
  subst h1
  have h28 : 28 ≤ daysInMonth y m := daysInMonth_ge y m
  have h31 : daysInMonth y m ≤ 31 := daysInMonth_le y m
  have e1 : nextDay^[32] (⟨y, m, 1, hr⟩ : DT) =
      nextDay^[32 - daysInMonth y m]
        (nextDay (nextDay^[daysInMonth y m - 1] (⟨y, m, 1, hr⟩ : DT))) := by
    rw [← Function.iterate_succ_apply' nextDay (daysInMonth y m - 1),
      ← Function.iterate_add_apply]
    congr 1
    omega
  have e0 : nextDay^[daysInMonth y m - 1] (⟨y, m, 1, hr⟩ : DT) =
      ⟨y, m, daysInMonth y m, hr⟩ := by
    have e := addDays_within (daysInMonth y m - 1) y m 1 hr (by omega)
    unfold addDays at e
    rw [e]
    have h1d : 1 + (daysInMonth y m - 1) = daysInMonth y m := by omega
    rw [h1d]
  show nextDay^[32] (⟨y, m, 1, hr⟩ : DT) = _
  rw [e1, e0, nextDay_lastDay y m 1 hr hr]
  have hb : 1 + (32 - daysInMonth y m) ≤
      daysInMonth (nextMonthStart ⟨y, m, 1, hr⟩).year (nextMonthStart ⟨y, m, 1, hr⟩).month := by
    have := daysInMonth_ge (nextMonthStart ⟨y, m, 1, hr⟩).year (nextMonthStart ⟨y, m, 1, hr⟩).month
    omega
  have e3 := addDays_within (32 - daysInMonth y m)
    (nextMonthStart ⟨y, m, 1, hr⟩).year (nextMonthStart ⟨y, m, 1, hr⟩).month 1 hr hb
  unfold addDays at e3
  rw [e3]
  have hdm : daysInMonth (⟨y, m, 1, hr⟩ : DT).year (⟨y, m, 1, hr⟩ : DT).month =
      daysInMonth y m := rfl
  rw [hdm]
  have h33 : 1 + (32 - daysInMonth y m) = 33 - daysInMonth y m := by omega
  rw [h33]

theorem monthFloor_addDays_32 (d : DT) (hv : validDT d) (h1 : d.day = 1) :
    monthFloor (addDays d 32) = nextMonthStart d := by
  rw [addDays_32 d hv h1]
  unfold monthFloor nextMonthStart
  by_cases hm : d.month < 12 <;> simp [hm]

theorem dtMonthIndex_nextMonthStart (d : DT) (hv : validDT d) :
    dtMonthIndex (nextMonthStart d) = dtMonthIndex d + 1 := by
  obtain ⟨hm1, hm2, _⟩ := hv
  unfold nextMonthStart dtMonthIndex monthIndex
  by_cases hm : d.month < 12 <;> simp [hm] <;> omega

theorem dtMonthIndex_monthFloor (d : DT) : dtMonthIndex (monthFloor d) = dtMonthIndex d := rfl

theorem monthOfIndex_monthIndex (y m : Nat) (h1 : 1 ≤ m) (h2 : m ≤ 12) :
    monthOfIndex (monthIndex y m) = (y, m) := by
  unfold monthOfIndex monthIndex
  rw [Prod.mk.injEq]
  omega

theorem monthIndex_monthOfIndex (i : Nat) :
    monthIndex (monthOfIndex i).1 (monthOfIndex i).2 = i := by
  unfold monthOfIndex monthIndex
  simp only
  omega

theorem monthOfIndex_snd_bounds (i : Nat) :
    1 ≤ (monthOfIndex i).2 ∧ (monthOfIndex i).2 ≤ 12 := by
  unfold monthOfIndex
  simp only
  omega

theorem monthOfIndex_injective : Function.Injective monthOfIndex := by
  intro i j hij
  have hi := monthIndex_monthOfIndex i
  rw [hij, monthIndex_monthOfIndex] at hi
  exact hi.symm

theorem monthOfIndex_isMonthStart (i : Nat) :
    isMonthStart ⟨(monthOfIndex i).1, (monthOfIndex i).2, 1, 0⟩ := by
  have hb := monthOfIndex_snd_bounds i
  have hd := daysInMonth_ge (monthOfIndex i).1 (monthOfIndex i).2
  exact ⟨⟨hb.1, hb.2, le_refl 1, le_trans (by omega : (1 : Nat) ≤ 28) hd,
    Nat.zero_lt_succ 23⟩, rfl, rfl⟩

theorem isMonthStart_le_iff (a b : DT) (ha : isMonthStart a) (hb : isMonthStart b) :
    (dtLe a b = true ↔ dtMonthIndex a ≤ dtMonthIndex b) := by
  obtain ⟨⟨ham1, ham2, _⟩, had, hah⟩ := ha
  obtain ⟨⟨hbm1, hbm2, _⟩, hbd, hbh⟩ := hb
  rw [dtLe_iff]
  unfold dtMonthIndex monthIndex
  omega

theorem isMonthStart_eq_iff (a b : DT) (ha : isMonthStart a) (hb : isMonthStart b) :
    (a = b ↔ dtMonthIndex a = dtMonthIndex b) := by
  obtain ⟨ay, am, ad, ah2⟩ := a
  obtain ⟨by2, bm, bd, bh2⟩ := b
  have ham1 : 1 ≤ am := ha.1.1
  have ham2 : am ≤ 12 := ha.1.2.1
  have hbm1 : 1 ≤ bm := hb.1.1
  have hbm2 : bm ≤ 12 := hb.1.2.1
  have had : ad = 1 := ha.2.1
  have hah : ah2 = 0 := ha.2.2
  have hbd : bd = 1 := hb.2.1
  have hbh : bh2 = 0 := hb.2.2
  subst had hah hbd hbh
  show (DT.mk ay am 1 0 = DT.mk by2 bm 1 0) ↔ (ay * 12 + (am - 1) = by2 * 12 + (bm - 1))
  simp only [DT.mk.injEq]
  constructor
  · rintro ⟨h1, h2, -, -⟩
    subst h1 h2
    rfl
  · intro h
    refine ⟨?_, ?_, trivial, trivial⟩ <;> omega

/-! ### Bucket and aggregation lemmas -/

theorem loIdx_le : ∀ (xs : List Nat) (a : Nat), loIdx xs a ≤ a ∧ ∀ y ∈ xs, loIdx xs a ≤ y
  | [], a => ⟨le_refl a, by simp⟩
  | x :: xs, a => by
    obtain ⟨h1, h2⟩ := loIdx_le xs (min a x)
    refine ⟨le_trans h1 (min_le_left a x), ?_⟩
    intro y hy
    rcases List.mem_cons.1 hy with rfl | hy
    · exact le_trans h1 (min_le_right a y)
    · exact h2 y hy

theorem hiIdx_ge : ∀ (xs : List Nat) (a : Nat), a ≤ hiIdx xs a ∧ ∀ y ∈ xs, y ≤ hiIdx xs a
  | [], a => ⟨le_refl a, by simp⟩
  | x :: xs, a => by
    obtain ⟨h1, h2⟩ := hiIdx_ge xs (max a x)
    refine ⟨le_trans (le_max_left a x) h1, ?_⟩
    intro y hy
    rcases List.mem_cons.1 hy with rfl | hy
    · exact le_trans (le_max_right a y) h1
    · exact h2 y hy

theorem le_loIdx : ∀ (xs : List Nat) (a c : Nat), c ≤ a → (∀ y ∈ xs, c ≤ y) → c ≤ loIdx xs a
  | [], _, _, h, _ => h
  | x :: xs, a, c, h, hall => by
    apply le_loIdx xs (min a x) c (le_min h (hall x (List.mem_cons_self x xs)))
    intro y hy
    exact hall y (List.mem_cons_of_mem x hy)

theorem bucketMonths_eq_nil (readings : List Reading) (h : readings.map tsMonthIdx = []) :
    bucketMonths readings = [] := by
  unfold bucketMonths
  rw [h]

theorem bucketMonths_eq_cons (readings : List Reading) (x : Nat) (xs : List Nat)
    (h : readings.map tsMonthIdx = x :: xs) :
    bucketMonths readings =
      (List.range (hiIdx xs x + 1 - loIdx xs x)).map (fun k => monthOfIndex (loIdx xs x + k)) := by
  unfold bucketMonths
  rw [h]

theorem mem_bucketMonths (readings : List Reading) (i : Nat)
    (hi : i ∈ readings.map tsMonthIdx) :
    monthOfIndex i ∈ bucketMonths readings := by
  cases hmap : readings.map tsMonthIdx with
  | nil => rw [hmap] at hi; simp at hi
  | cons x xs =>
    rw [hmap] at hi
    have hlo := loIdx_le xs x
    have hhi := hiIdx_ge xs x
    have hlo_i : loIdx xs x ≤ i := by
      rcases List.mem_cons.1 hi with rfl | h
      · exact hlo.1
      · exact hlo.2 i h
    have hhi_i : i ≤ hiIdx xs x := by
      rcases List.mem_cons.1 hi with rfl | h
      · exact hhi.1
      · exact hhi.2 i h
    rw [bucketMonths_eq_cons readings x xs hmap]
    refine List.mem_map.2 ⟨i - loIdx xs x, ?_, ?_⟩
    · rw [List.mem_range]; omega
    · congr 1; omega

theorem bucketMonths_bounds (readings : List Reading) (ym : Nat × Nat)
    (h : ym ∈ bucketMonths readings) :
    ∃ x xs, readings.map tsMonthIdx = x :: xs ∧
      loIdx xs x ≤ monthIndex ym.1 ym.2 ∧ monthIndex ym.1 ym.2 ≤ hiIdx xs x ∧
      1 ≤ ym.2 ∧ ym.2 ≤ 12 := by
  cases hmap : readings.map tsMonthIdx with
  | nil => rw [bucketMonths_eq_nil readings hmap] at h; simp at h
  | cons x xs =>
    rw [bucketMonths_eq_cons readings x xs hmap] at h
    simp only [List.mem_map, List.mem_range] at h
    obtain ⟨k, hk, hke⟩ := h
    subst hke
    refine ⟨x, xs, rfl, ?_, ?_, (monthOfIndex_snd_bounds _).1, (monthOfIndex_snd_bounds _).2⟩
    · rw [monthIndex_monthOfIndex]; omega
    · rw [monthIndex_monthOfIndex]; omega

theorem bucketMonths_nodup (readings : List Reading) : (bucketMonths readings).Nodup := by
  cases hmap : readings.map tsMonthIdx with
  | nil => rw [bucketMonths_eq_nil readings hmap]; exact List.nodup_nil
  | cons x xs =>
    rw [bucketMonths_eq_cons readings x xs hmap]
    refine List.Nodup.map ?_ (List.nodup_range _)
    intro i j hij
    have := monthOfIndex_injective hij
    omega

theorem mem_monthTemps_bucket (readings : List Reading) (y m : Nat)
    (h1 : 1 ≤ m) (h2 : m ≤ 12) (hne : monthTemps readings y m ≠ []) :
    (y, m) ∈ bucketMonths readings := by
  have hfil : readings.filter (fun r => r.ts.year == y && r.ts.month == m) ≠ [] := by
    intro hc
    apply hne
    unfold monthTemps
    rw [hc]
    rfl
  obtain ⟨r, hr⟩ := List.exists_mem_of_ne_nil _ hfil
  have hrr := List.mem_filter.1 hr
  have hy : r.ts.year = y := by
    have := hrr.2
    simp only [Bool.and_eq_true, beq_iff_eq] at this
    exact this.1
  have hm : r.ts.month = m := by
    have := hrr.2
    simp only [Bool.and_eq_true, beq_iff_eq] at this
    exact this.2
  have hidx : tsMonthIdx r = monthIndex y m := by
    unfold tsMonthIdx dtMonthIndex
    rw [hy, hm]
  have hmem : monthIndex y m ∈ readings.map tsMonthIdx :=
    List.mem_map.2 ⟨r, hrr.1, hidx⟩
  have := mem_bucketMonths readings (monthIndex y m) hmem
  rwa [monthOfIndex_monthIndex y m h1 h2] at this

theorem rowFor_month (readings : List Reading) (ym : Nat × Nat) :
    (rowFor readings ym).month = ⟨ym.1, ym.2, 1, 0⟩ := rfl

theorem rowFor_coverage (readings : List Reading) (ym : Nat × Nat) :
    (rowFor readings ym).coverage =
      ((monthTemps readings ym.1 ym.2).length : ℚ) / ((daysInMonth ym.1 ym.2 * 24 : Nat) : ℚ) := rfl

theorem rowFor_hdd60 (readings : List Reading) (ym : Nat × Nat) :
    (rowFor readings ym).hdd60 =
      (listMean ((monthTemps readings ym.1 ym.2).map (hddHour 60))).map
        (fun v => v * ((daysInMonth ym.1 ym.2 * 24 : Nat) : ℚ)) := rfl

theorem rowFor_hdd65 (readings : List Reading) (ym : Nat × Nat) :
    (rowFor readings ym).hdd65 =
      (listMean ((monthTemps readings ym.1 ym.2).map (hddHour 65))).map
        (fun v => v * ((daysInMonth ym.1 ym.2 * 24 : Nat) : ℚ)) := rfl

theorem mem_dd_rows_iff (readings : List Reading) (row : MonthRow) :
    row ∈ dd_rows readings ↔ ∃ ym ∈ bucketMonths readings, row = rowFor readings ym := by
  unfold dd_rows
  rw [List.mem_map]
  constructor
  · rintro ⟨ym, hym, rfl⟩
    exact ⟨ym, hym, rfl⟩
  · rintro ⟨ym, hym, rfl⟩
    exact ⟨ym, hym, rfl⟩

theorem dd_rows_month_determined (readings : List Reading) (y m : Nat) (row : MonthRow)
    (hrow : row ∈ dd_rows readings) (hm : row.month = ⟨y, m, 1, 0⟩) :
    row = rowFor readings (y, m) := by
  rw [mem_dd_rows_iff] at hrow
  obtain ⟨ym, hym, rfl⟩ := hrow
  rw [rowFor_month] at hm
  simp only [DT.mk.injEq] at hm
  obtain ⟨h1, h2, -, -⟩ := hm
  have : ym = (y, m) := Prod.ext h1 h2
  rw [this]

/-! ### Value-level helper lemmas -/

theorem listMean_ne_nil (xs : List ℚ) (h : xs ≠ []) :
    listMean xs = some (xs.sum / (xs.length : ℚ)) := by
  cases xs with
  | nil => exact absurd rfl h
  | cons a l => rfl

theorem dd_rows_exists_month (readings : List Reading) (y m : Nat)
    (h1 : 1 ≤ m) (h2 : m ≤ 12) (hne : monthTemps readings y m ≠ []) :
    ∃ row ∈ dd_rows readings, row.month = ⟨y, m, 1, 0⟩ := by
  have hb := mem_monthTemps_bucket readings y m h1 h2 hne
  refine ⟨rowFor readings (y, m), ?_, rfl⟩
  unfold dd_rows
  exact List.mem_map_of_mem _ hb

theorem rowFor_hdd60_some (readings : List Reading) (y m : Nat)
    (hne : monthTemps readings y m ≠ []) :
    (rowFor readings (y, m)).hdd60 =
      some ((((monthTemps readings y m).map (hddHour 60)).sum /
        ((monthTemps readings y m).length : ℚ)) * ((daysInMonth y m * 24 : Nat) : ℚ)) := by
  rw [rowFor_hdd60]
  have hne2 : (monthTemps readings y m).map (hddHour 60) ≠ [] := by
    simpa using hne
  rw [listMean_ne_nil _ hne2]
  simp [List.length_map]

theorem rowFor_hdd65_some (readings : List Reading) (y m : Nat)
    (hne : monthTemps readings y m ≠ []) :
    (rowFor readings (y, m)).hdd65 =
      some ((((monthTemps readings y m).map (hddHour 65)).sum /
        ((monthTemps readings y m).length : ℚ)) * ((daysInMonth y m * 24 : Nat) : ℚ)) := by
  rw [rowFor_hdd65]
  have hne2 : (monthTemps readings y m).map (hddHour 65) ≠ [] := by
    simpa using hne
  rw [listMean_ne_nil _ hne2]
  simp [List.length_map]

theorem hddHour_nonneg (base t : ℚ) : 0 ≤ hddHour base t := by
  unfold hddHour
  split
  · apply div_nonneg <;> linarith
  · exact le_refl 0

theorem hddHour_base_mono (t : ℚ) : hddHour 60 t ≤ hddHour 65 t := by
  unfold hddHour
  split <;> split
  · apply div_le_div_of_nonneg_right ?_ ?_ <;> try linarith
  · linarith
  · have h0 : (0 : ℚ) ≤ 65 - t := by linarith
    positivity
  · exact le_refl 0

/-! ### Claim C1 -/

/-- C1: for every reading list, and for every calendar month (with `D` days)
in which `H ≥ 1` hourly readings are present, `dd_for_site`'s table contains
a row for that month and the coverage it reports equals exactly
`H / (D * 24)`. -/
theorem claim_C1 (readings : List Reading) (y m : Nat)
    (h1 : 1 ≤ m) (h2 : m ≤ 12) (hH : 1 ≤ (monthTemps readings y m).length) :
    (∃ row ∈ dd_rows readings, row.month = ⟨y, m, 1, 0⟩) ∧
      ∀ row ∈ dd_rows readings, row.month = ⟨y, m, 1, 0⟩ →
        row.coverage =
          ((monthTemps readings y m).length : ℚ) / ((daysInMonth y m : ℚ) * 24) := by
  have hne : monthTemps readings y m ≠ [] := by
    intro hc
    rw [hc] at hH
    simp at hH
  refine ⟨dd_rows_exists_month readings y m h1 h2 hne, ?_⟩
  intro row hrow hm
  rw [dd_rows_month_determined readings y m row hrow hm, rowFor_coverage]
  push_cast
  ring

theorem claim_C1_witness :
    (1 ≤ (monthTemps [⟨⟨2018, 2, 3, 5⟩, 50⟩] 2018 2).length) ∧
    ((∃ row ∈ dd_rows [⟨⟨2018, 2, 3, 5⟩, 50⟩], row.month = ⟨2018, 2, 1, 0⟩) ∧
      ∀ row ∈ dd_rows [⟨⟨2018, 2, 3, 5⟩, 50⟩], row.month = ⟨2018, 2, 1, 0⟩ →
        row.coverage = ((monthTemps [⟨⟨2018, 2, 3, 5⟩, 50⟩] 2018 2).length : ℚ) /
          ((daysInMonth 2018 2 : ℚ) * 24)) :=
  ⟨by decide, claim_C1 [⟨⟨2018, 2, 3, 5⟩, 50⟩] 2018 2 (by decide) (by decide) (by decide)⟩

/-! ### Claim C2 -/

/-- C2: for every month (with `D` days) holding at least one reading, the
monthly degree-day value is the mean over present readings of the per-hour
value `max(0, (base - temp)/24)` scaled by `D * 24`; consequently, if all
present readings share one temperature `T < 60` then
`hdd60 = (D*24) * (60-T)/24` regardless of how many readings are present,
and if every reading is exactly 60 °F then `hdd60 = 0` and `hdd65 = 5*D`. -/
theorem claim_C2 (readings : List Reading) (y m : Nat) (T : ℚ)
    (h1 : 1 ≤ m) (h2 : m ≤ 12) (hH : 1 ≤ (monthTemps readings y m).length) :
    (∃ row ∈ dd_rows readings, row.month = ⟨y, m, 1, 0⟩) ∧
      ∀ row ∈ dd_rows readings, row.month = ⟨y, m, 1, 0⟩ →
        (row.hdd60 = some ((((monthTemps readings y m).map (hddHour 60)).sum /
              ((monthTemps readings y m).length : ℚ)) * ((daysInMonth y m : ℚ) * 24)) ∧
          row.hdd65 = some ((((monthTemps readings y m).map (hddHour 65)).sum /
              ((monthTemps readings y m).length : ℚ)) * ((daysInMonth y m : ℚ) * 24))) ∧
        ((∀ t ∈ monthTemps readings y m, t = T) → T < 60 →
          row.hdd60 = some (((daysInMonth y m : ℚ) * 24) * (60 - T) / 24)) ∧
        ((∀ t ∈ monthTemps readings y m, t = (60 : ℚ)) →
          row.hdd60 = some 0 ∧ row.hdd65 = some (5 * (daysInMonth y m : ℚ))) := by
  have hne : monthTemps readings y m ≠ [] := by
    intro hc
    rw [hc] at hH
    simp at hH
  have hlen : (0 : ℚ) < ((monthTemps readings y m).length : ℚ) := by
    have : 0 < (monthTemps readings y m).length := hH
    exact_mod_cast this
  refine ⟨dd_rows_exists_month readings y m h1 h2 hne, ?_⟩
  intro row hrow hm
  rw [dd_rows_month_determined readings y m row hrow hm]
  have e60 := rowFor_hdd60_some readings y m hne
  have e65 := rowFor_hdd65_some readings y m hne
  refine ⟨⟨by rw [e60]; push_cast; ring_nf, by rw [e65]; push_cast; ring_nf⟩, ?_, ?_⟩
  · intro huni hT
    rw [e60]
    have hsum : ((monthTemps readings y m).map (hddHour 60)).sum =
        ((monthTemps readings y m).map (hddHour 60)).length • ((60 - T) / 24) := by
      apply List.sum_eq_card_nsmul
      intro x hx
      obtain ⟨t, ht, rfl⟩ := List.mem_map.1 hx
      rw [huni t ht]
      unfold hddHour
      rw [if_pos hT]
    rw [hsum, List.length_map, nsmul_eq_mul]
    congr 1
    push_cast
    field_simp
    ring
  · intro huni
    constructor
    · rw [e60]
      have hsum : ((monthTemps readings y m).map (hddHour 60)).sum =
          ((monthTemps readings y m).map (hddHour 60)).length • (0 : ℚ) := by
        apply List.sum_eq_card_nsmul
        intro x hx
        obtain ⟨t, ht, rfl⟩ := List.mem_map.1 hx
        rw [huni t ht]
        unfold hddHour
        rw [if_neg (lt_irrefl (60 : ℚ))]
      rw [hsum]
      simp
    · rw [e65]
      have hsum : ((monthTemps readings y m).map (hddHour 65)).sum =
          ((monthTemps readings y m).map (hddHour 65)).length • ((5 : ℚ) / 24) := by
        apply List.sum_eq_card_nsmul
        intro x hx
        obtain ⟨t, ht, rfl⟩ := List.mem_map.1 hx
        rw [huni t ht]
        unfold hddHour
        rw [if_pos (by norm_num : (60 : ℚ) < 65)]
        norm_num
      rw [hsum, List.length_map, nsmul_eq_mul]
      congr 1
      push_cast
      field_simp
      ring

theorem claim_C2_witness :
    (1 ≤ (monthTemps [⟨⟨2018, 2, 3, 5⟩, 50⟩] 2018 2).length) ∧
    ((∃ row ∈ dd_rows [⟨⟨2018, 2, 3, 5⟩, 50⟩], row.month = ⟨2018, 2, 1, 0⟩) ∧
      ∀ row ∈ dd_rows [⟨⟨2018, 2, 3, 5⟩, 50⟩], row.month = ⟨2018, 2, 1, 0⟩ →
        (row.hdd60 = some ((((monthTemps [⟨⟨2018, 2, 3, 5⟩, 50⟩] 2018 2).map (hddHour 60)).sum /
              ((monthTemps [⟨⟨2018, 2, 3, 5⟩, 50⟩] 2018 2).length : ℚ)) *
              ((daysInMonth 2018 2 : ℚ) * 24)) ∧
          row.hdd65 = some ((((monthTemps [⟨⟨2018, 2, 3, 5⟩, 50⟩] 2018 2).map (hddHour 65)).sum /
              ((monthTemps [⟨⟨2018, 2, 3, 5⟩, 50⟩] 2018 2).length : ℚ)) *
              ((daysInMonth 2018 2 : ℚ) * 24))) ∧
        ((∀ t ∈ monthTemps [⟨⟨2018, 2, 3, 5⟩, 50⟩] 2018 2, t = (50 : ℚ)) → (50 : ℚ) < 60 →
          row.hdd60 = some (((daysInMonth 2018 2 : ℚ) * 24) * (60 - 50) / 24)) ∧
        ((∀ t ∈ monthTemps [⟨⟨2018, 2, 3, 5⟩, 50⟩] 2018 2, t = (60 : ℚ)) →
          row.hdd60 = some 0 ∧ row.hdd65 = some (5 * (daysInMonth 2018 2 : ℚ)))) :=
  ⟨by decide, claim_C2 [⟨⟨2018, 2, 3, 5⟩, 50⟩] 2018 2 50 (by decide) (by decide) (by decide)⟩

/-! ### Claim C10 -/

/-- C10 counterexample: with readings only in February and April 2018, the
successful result contains a March row whose `hdd60` and `hdd65` carry no
value at all (pandas NaN, here `none`), so the claim that every month's
returned values satisfy `0 ≤ hdd60 ≤ hdd65` fails at this input. -/
theorem claim_C10_cex :
    ∃ row ∈ dd_rows (sparseStore "PAED_temp"),
      row.month = ⟨2018, 3, 1, 0⟩ ∧ row.hdd60 = none ∧ row.hdd65 = none := by
  decide

/-- C10 (amended): for every month of a successful aggregator result that
carries degree-day values (i.e. has at least one reading), the values
satisfy `0 ≤ hdd60` and `hdd60 ≤ hdd65`; months with no readings carry no
values. -/
theorem claim_C10_amended (readings : List Reading) (row : MonthRow) (v w : ℚ)
    (hrow : row ∈ dd_rows readings) (hv : row.hdd60 = some v) (hw : row.hdd65 = some w) :
    0 ≤ v ∧ v ≤ w := by
  rw [mem_dd_rows_iff] at hrow
  obtain ⟨ym, hym, rfl⟩ := hrow
  obtain ⟨y, m⟩ := ym
  have hne : monthTemps readings y m ≠ [] := by
    intro hc
    rw [rowFor_hdd60] at hv
    simp [hc, listMean] at hv
  rw [rowFor_hdd60_some readings y m hne] at hv
  rw [rowFor_hdd65_some readings y m hne] at hw
  have hlen : (0 : ℚ) < ((monthTemps readings y m).length : ℚ) := by
    have h0 : monthTemps readings y m ≠ [] := hne
    have : 0 < (monthTemps readings y m).length := List.length_pos.2 h0
    exact_mod_cast this
  have htot : (0 : ℚ) ≤ ((daysInMonth y m * 24 : Nat) : ℚ) := by positivity
  have hsum60 : (0 : ℚ) ≤ ((monthTemps readings y m).map (hddHour 60)).sum := by
    apply List.sum_nonneg
    intro x hx
    obtain ⟨t, ht, rfl⟩ := List.mem_map.1 hx
    exact hddHour_nonneg 60 t
  have hsums : ((monthTemps readings y m).map (hddHour 60)).sum ≤
      ((monthTemps readings y m).map (hddHour 65)).sum := by
    apply List.sum_le_sum
    intro t ht
    exact hddHour_base_mono t
  injection hv with hv
  injection hw with hw
  subst hv hw
  constructor
  · exact mul_nonneg (div_nonneg hsum60 (le_of_lt hlen)) htot
  · exact mul_le_mul_of_nonneg_right (div_le_div_of_nonneg_right hsums (le_of_lt hlen)) htot

/-! ### Claim C10 witness -/

theorem claim_C10_witness :
    (rowFor (sparseStore "PAED_temp") (2018, 2) ∈ dd_rows (sparseStore "PAED_temp") ∧
      (rowFor (sparseStore "PAED_temp") (2018, 2)).hdd60 = some 280 ∧
      (rowFor (sparseStore "PAED_temp") (2018, 2)).hdd65 = some 420) ∧
    (0 ≤ (280 : ℚ) ∧ (280 : ℚ) ≤ 420) := by
  have hmem : rowFor (sparseStore "PAED_temp") (2018, 2) ∈ dd_rows (sparseStore "PAED_temp") :=
    List.mem_map_of_mem _ (by decide : (2018, 2) ∈ bucketMonths (sparseStore "PAED_temp"))
  have hv : (rowFor (sparseStore "PAED_temp") (2018, 2)).hdd60 = some 280 := by
    norm_num [rowFor, monthTemps, sparseStore, listMean, hddHour, daysInMonth, isLeap]
  have hw : (rowFor (sparseStore "PAED_temp") (2018, 2)).hdd65 = some 420 := by
    norm_num [rowFor, monthTemps, sparseStore, listMean, hddHour, daysInMonth, isLeap]
  exact ⟨⟨hmem, hv, hw⟩, claim_C10_amended (sparseStore "PAED_temp") _ 280 420 hmem hv hw⟩

/-! ### Claim C7 -/

/-- C7: when the remote yields a decoded response, `dd_for_site` raises if
and only if the response's status is not `"success"`, the raised error
carries the response's data payload, and on success it returns the
aggregated table without raising. -/
theorem claim_C7 (remote : String → DT → Except String BmonResponse) (stn : String)
    (start : DT) (resp : BmonResponse)
    (hresp : remote (sensorId stn) (monthFloor start) = .ok resp) :
    ((∃ e, dd_for_site remote stn start = .error e) ↔ resp.status ≠ "success") ∧
    (resp.status ≠ "success" → dd_for_site remote stn start = .error resp.errPayload) ∧
    (resp.status = "success" → dd_for_site remote stn start = .ok (dd_rows resp.readings)) := by
  unfold dd_for_site
  rw [hresp]
  by_cases hs : resp.status = "success"
  · simp [hs]
  · simp [hs]

theorem claim_C7_witness :
    (failRemote (sensorId "PAED") (monthFloor ⟨2018, 1, 15, 0⟩) = .ok failResp) ∧
    (((∃ e, dd_for_site failRemote "PAED" ⟨2018, 1, 15, 0⟩ = .error e) ↔
        failResp.status ≠ "success") ∧
      (failResp.status ≠ "success" →
        dd_for_site failRemote "PAED" ⟨2018, 1, 15, 0⟩ = .error failResp.errPayload) ∧
      (failResp.status = "success" →
        dd_for_site failRemote "PAED" ⟨2018, 1, 15, 0⟩ = .ok (dd_rows failResp.readings))) :=
  ⟨rfl, claim_C7 failRemote "PAED" ⟨2018, 1, 15, 0⟩ failResp rfl⟩

/-! ### Claim C8 -/

/-- C8: for every valid first-of-month date, adding 32 days and then
normalizing to the first instant of the month lands exactly on the first
day of the immediately following month: it has day 1 and hour 0, and its
month index is the successor of the original month's index (so no month is
skipped and the anchor never stays in the original month), for every month
length 28 through 31. -/
theorem claim_C8 (d : DT) (hv : validDT d) (h1 : d.day = 1) :
    monthFloor (addDays d 32) = nextMonthStart d ∧
    (nextMonthStart d).day = 1 ∧ (nextMonthStart d).hour = 0 ∧
    dtMonthIndex (nextMonthStart d) = dtMonthIndex d + 1 := by
  refine ⟨monthFloor_addDays_32 d hv h1, ?_, ?_, dtMonthIndex_nextMonthStart d hv⟩
  · unfold nextMonthStart
    split <;> rfl
  · unfold nextMonthStart
    split <;> rfl

theorem claim_C8_witness :
    (validDT ⟨2018, 2, 1, 0⟩ ∧ (⟨2018, 2, 1, 0⟩ : DT).day = 1) ∧
    (monthFloor (addDays ⟨2018, 2, 1, 0⟩ 32) = nextMonthStart ⟨2018, 2, 1, 0⟩ ∧
      (nextMonthStart ⟨2018, 2, 1, 0⟩).day = 1 ∧ (nextMonthStart ⟨2018, 2, 1, 0⟩).hour = 0 ∧
      dtMonthIndex (nextMonthStart ⟨2018, 2, 1, 0⟩) = dtMonthIndex ⟨2018, 2, 1, 0⟩ + 1) :=
  ⟨⟨by decide, rfl⟩, claim_C8 ⟨2018, 2, 1, 0⟩ (by decide) rfl⟩

/-! ### Claim C9 -/

/-- C9 counterexample: an honest remote stores readings only in February
and April 2018; `dd_for_site` called with a January 15 start succeeds and
its index is [Feb 1, Mar 1, Apr 1]: it contains an entry for March, a month
with no readings at all, and no entry for January, the month containing the
start date — refuting "exactly one entry per calendar month that has at
least one reading" and "months range from the month containing the start
date". -/
theorem claim_C9_cex :
    (dd_for_site (honestRemote sparseStore) "PAED" ⟨2018, 1, 15, 0⟩).map
        (fun rows => rows.map (fun r => r.month)) =
      .ok [⟨2018, 2, 1, 0⟩, ⟨2018, 3, 1, 0⟩, ⟨2018, 4, 1, 0⟩] ∧
    monthTemps (sparseStore (sensorId "PAED")) 2018 3 = [] ∧
    (⟨2018, 1, 1, 0⟩ : DT) ∉ [(⟨2018, 2, 1, 0⟩ : DT), ⟨2018, 3, 1, 0⟩, ⟨2018, 4, 1, 0⟩] := by
  refine ⟨?_, by decide, by decide⟩
  decide

/-- C9 (amended): for every successful call with a nonempty reading list,
the returned index is exactly one first-of-month entry for every calendar
month from the earliest reading's month through the latest reading's month
(months with no readings in between included); every reading's month lies
in that range, and no returned month lies outside it.  The range starts at
the month containing the start date whenever the source has readings there. -/
theorem claim_C9_amended (readings : List Reading) (x : Nat) (xs : List Nat)
    (hmap : readings.map tsMonthIdx = x :: xs) :
    ((dd_rows readings).map (fun r => r.month) =
      (List.range (hiIdx xs x + 1 - loIdx xs x)).map
        (fun k => ⟨(loIdx xs x + k) / 12, (loIdx xs x + k) % 12 + 1, 1, 0⟩)) ∧
    (∀ r ∈ readings, loIdx xs x ≤ tsMonthIdx r ∧ tsMonthIdx r ≤ hiIdx xs x) ∧
    (∀ row ∈ dd_rows readings, loIdx xs x ≤ dtMonthIndex row.month ∧
      dtMonthIndex row.month ≤ hiIdx xs x) := by
  refine ⟨?_, ?_, ?_⟩
  · unfold dd_rows
    rw [bucketMonths_eq_cons readings x xs hmap, List.map_map, List.map_map]
    rfl
  · intro r hr
    have hmem : tsMonthIdx r ∈ x :: xs := by
      rw [← hmap]
      exact List.mem_map_of_mem _ hr
    have hlo := loIdx_le xs x
    have hhi := hiIdx_ge xs x
    rcases List.mem_cons.1 hmem with he | hm2
    · exact ⟨he ▸ hlo.1, he ▸ hhi.1⟩
    · exact ⟨hlo.2 _ hm2, hhi.2 _ hm2⟩
  · intro row hrow
    rw [mem_dd_rows_iff] at hrow
    obtain ⟨ym, hym, rfl⟩ := hrow
    obtain ⟨xb, xsb, hmapb, hb1, hb2, -, -⟩ := bucketMonths_bounds readings ym hym
    rw [hmap] at hmapb
    injection hmapb with he1 he2
    subst he1 he2
    rw [rowFor_month]
    exact ⟨hb1, hb2⟩

theorem claim_C9_witness :
    ((sparseStore "PAED_temp").map tsMonthIdx = 24217 :: [24219]) ∧
    (((dd_rows (sparseStore "PAED_temp")).map (fun r => r.month) =
      (List.range (hiIdx [24219] 24217 + 1 - loIdx [24219] 24217)).map
        (fun k => ⟨(loIdx [24219] 24217 + k) / 12, (loIdx [24219] 24217 + k) % 12 + 1, 1, 0⟩)) ∧
    (∀ r ∈ sparseStore "PAED_temp",
      loIdx [24219] 24217 ≤ tsMonthIdx r ∧ tsMonthIdx r ≤ hiIdx [24219] 24217) ∧
    (∀ row ∈ dd_rows (sparseStore "PAED_temp"),
      loIdx [24219] 24217 ≤ dtMonthIndex row.month ∧
      dtMonthIndex row.month ≤ hiIdx [24219] 24217)) :=
  ⟨by decide, claim_C9_amended (sparseStore "PAED_temp") 24217 [24219] (by decide)⟩

/-! ### Merger structure lemmas -/

theorem foldlStations_mem : ∀ (df : List DataRow) (acc : List String) (s : String),
    (s ∈ df.foldl (fun a r => if r.station ∈ a then a else a ++ [r.station]) acc) ↔
      (s ∈ acc ∨ ∃ r ∈ df, r.station = s)
  | [], acc, s => by simp
  | r :: df, acc, s => by
    simp only [List.foldl_cons]
    rw [foldlStations_mem df _ s]
    by_cases h : r.station ∈ acc
    · rw [if_pos h]
      constructor
      · rintro (hs | ⟨r2, h2, h3⟩)
        · exact Or.inl hs
        · exact Or.inr ⟨r2, List.mem_cons_of_mem r h2, h3⟩
      · rintro (hs | ⟨r2, h2, h3⟩)
        · exact Or.inl hs
        · rcases List.mem_cons.1 h2 with rfl | h2b
          · exact Or.inl (h3 ▸ h)
          · exact Or.inr ⟨r2, h2b, h3⟩
    · rw [if_neg h]
      constructor
      · rintro (hs | ⟨r2, h2, h3⟩)
        · rcases List.mem_append.1 hs with hs1 | hs2
          · exact Or.inl hs1
          · exact Or.inr ⟨r, List.mem_cons_self r df, (List.mem_singleton.1 hs2).symm⟩
        · exact Or.inr ⟨r2, List.mem_cons_of_mem r h2, h3⟩
      · rintro (hs | ⟨r2, h2, h3⟩)
        · exact Or.inl (List.mem_append.2 (Or.inl hs))
        · rcases List.mem_cons.1 h2 with rfl | h2b
          · exact Or.inl (List.mem_append.2 (Or.inr (List.mem_singleton.2 h3.symm)))
          · exact Or.inr ⟨r2, h2b, h3⟩

theorem foldlStations_nodup : ∀ (df : List DataRow) (acc : List String), acc.Nodup →
    (df.foldl (fun a r => if r.station ∈ a then a else a ++ [r.station]) acc).Nodup
  | [], _, h => h
  | r :: df, acc, h => by
    simp only [List.foldl_cons]
    by_cases hm : r.station ∈ acc
    · rw [if_pos hm]
      exact foldlStations_nodup df acc h
    · rw [if_neg hm]
      refine foldlStations_nodup df _ ?_
      exact List.nodup_append.2 ⟨h, List.nodup_singleton _, List.disjoint_singleton.2 hm⟩

theorem uniqueStations_mem (df : List DataRow) (s : String) :
    s ∈ uniqueStations df ↔ ∃ r ∈ df, r.station = s := by
  unfold uniqueStations
  rw [foldlStations_mem]
  simp

theorem uniqueStations_nodup (df : List DataRow) : (uniqueStations df).Nodup :=
  foldlStations_nodup df [] List.nodup_nil

theorem monthMax_spec : ∀ (months : List DT) (d : DT),
    monthMax d months ∈ d :: months ∧ ∀ x ∈ d :: months, dtLe x (monthMax d months) = true
  | [], d => ⟨List.mem_singleton_self d, by
      intro x hx
      rw [List.mem_singleton] at hx
      rw [hx]
      exact dtLe_refl d⟩
  | m :: ms, d => by
    by_cases hdm : dtLe d m = true
    · have hstep : monthMax d (m :: ms) = monthMax m ms := by
        unfold monthMax
        simp only [List.foldl_cons, if_pos hdm]
      obtain ⟨ih1, ih2⟩ := monthMax_spec ms m
      rw [hstep]
      refine ⟨?_, ?_⟩
      · rcases List.mem_cons.1 ih1 with he | hm2
        · rw [he]
          exact List.mem_cons_of_mem d (List.mem_cons_self m ms)
        · exact List.mem_cons_of_mem d (List.mem_cons_of_mem m hm2)
      · intro x hx
        rcases List.mem_cons.1 hx with rfl | hx2
        · exact dtLe_trans x m _ hdm (ih2 m (List.mem_cons_self m ms))
        · exact ih2 x hx2
    · have hmd : dtLe m d = true := (dtLe_total d m).resolve_left hdm
      have hstep : monthMax d (m :: ms) = monthMax d ms := by
        unfold monthMax
        simp only [List.foldl_cons, if_neg hdm]
      obtain ⟨ih1, ih2⟩ := monthMax_spec ms d
      rw [hstep]
      refine ⟨?_, ?_⟩
      · rcases List.mem_cons.1 ih1 with he | hm2
        · rw [he]
          exact List.mem_cons_self d (m :: ms)
        · exact List.mem_cons_of_mem d (List.mem_cons_of_mem m hm2)
      · intro x hx
        rcases List.mem_cons.1 hx with rfl | hx2
        · exact ih2 x (List.mem_cons_self _ _)
        · rcases List.mem_cons.1 hx2 with rfl | hx3
          · exact dtLe_trans x d _ hmd (ih2 d (List.mem_cons_self d ms))
          · exact ih2 x (List.mem_cons_of_mem d hx3)

theorem processStation_eq_nil (remote : String → DT → Except String BmonResponse)
    (df : List DataRow) (stn : String)
    (hmap : (df.filter (fun r => r.station == stn)).map (fun r => r.month) = []) :
    processStation remote df stn = .error "KeyError" := by
  unfold processStation
  rw [hmap]

theorem processStation_eq_cons (remote : String → DT → Except String BmonResponse)
    (df : List DataRow) (stn : String) (d : DT) (ms : List DT)
    (hmap : (df.filter (fun r => r.station == stn)).map (fun r => r.month) = d :: ms) :
    processStation remote df stn =
      (dd_for_site remote stn (addDays (monthMax d ms) 32)).map
        (fun dfm => (dfm.filter (fun r => decide (MIN_COVERAGE < r.coverage))).map
          (toDataRow stn)) := by
  unfold processStation
  rw [hmap]

theorem dd_for_site_ok (remote : String → DT → Except String BmonResponse)
    (stn : String) (start : DT) (rows : List MonthRow)
    (h : dd_for_site remote stn start = .ok rows) :
    ∃ resp, remote (sensorId stn) (monthFloor start) = .ok resp ∧
      resp.status = "success" ∧ rows = dd_rows resp.readings := by
  unfold dd_for_site at h
  cases hr : remote (sensorId stn) (monthFloor start) with
  | error e =>
    rw [hr] at h
    simp at h
  | ok resp =>
    rw [hr] at h
    by_cases hs : resp.status = "success"
    · simp only [hs, if_true] at h
      refine ⟨resp, rfl, hs, ?_⟩
      cases h
      rfl
    · simp only [hs, if_false] at h
      simp at h

theorem processStation_ok (remote : String → DT → Except String BmonResponse)
    (df : List DataRow) (stn : String) (staged : List DataRow)
    (h : processStation remote df stn = .ok staged) :
    ∃ d ms rows, (df.filter (fun r => r.station == stn)).map (fun r => r.month) = d :: ms ∧
      dd_for_site remote stn (addDays (monthMax d ms) 32) = .ok rows ∧
      staged = (rows.filter (fun r => decide (MIN_COVERAGE < r.coverage))).map (toDataRow stn) := by
  cases hmap : (df.filter (fun r => r.station == stn)).map (fun r => r.month) with
  | nil =>
    rw [processStation_eq_nil remote df stn hmap] at h
    simp at h
  | cons d ms =>
    rw [processStation_eq_cons remote df stn d ms hmap] at h
    cases hdd : dd_for_site remote stn (addDays (monthMax d ms) 32) with
    | error e =>
      rw [hdd] at h
      simp [Except.map] at h
    | ok rows =>
      rw [hdd] at h
      simp only [Except.map] at h
      refine ⟨d, ms, rows, rfl, hdd, ?_⟩
      cases h
      rfl

theorem mk_isMonthStart (y m : Nat) (h1 : 1 ≤ m) (h2 : m ≤ 12) :
    isMonthStart ⟨y, m, 1, 0⟩ := by
  have hd := daysInMonth_ge y m
  exact ⟨⟨h1, h2, le_refl 1, le_trans (by omega : (1 : Nat) ≤ 28) hd,
    Nat.zero_lt_succ 23⟩, rfl, rfl⟩

theorem dd_rows_months_nodup (readings : List Reading) :
    ((dd_rows readings).map (fun r => r.month)).Nodup := by
  unfold dd_rows
  rw [List.map_map]
  have he : ((fun r => r.month) ∘ rowFor readings) =
      fun ym : Nat × Nat => (⟨ym.1, ym.2, 1, 0⟩ : DT) := rfl
  rw [he]
  refine List.Nodup.map ?_ (bucketMonths_nodup readings)
  intro a b hab
  simp only [DT.mk.injEq] at hab
  exact Prod.ext hab.1 hab.2.1

theorem processStation_station (remote : String → DT → Except String BmonResponse)
    (df : List DataRow) (stn : String) (staged : List DataRow)
    (h : processStation remote df stn = .ok staged) :
    ∀ r ∈ staged, r.station = stn := by
  obtain ⟨d, ms, rows, hmap, hdd, rfl⟩ := processStation_ok remote df stn staged h
  intro r hr
  rw [List.mem_map] at hr
  obtain ⟨mr, hmr, rfl⟩ := hr
  rfl

theorem processStation_month_start (remote : String → DT → Except String BmonResponse)
    (df : List DataRow) (stn : String) (staged : List DataRow)
    (h : processStation remote df stn = .ok staged) :
    ∀ r ∈ staged, isMonthStart r.month := by
  obtain ⟨d, ms, rows, hmap, hdd, rfl⟩ := processStation_ok remote df stn staged h
  obtain ⟨resp, hresp, hs, rfl⟩ := dd_for_site_ok remote stn _ rows hdd
  intro r hr
  rw [List.mem_map] at hr
  obtain ⟨mr, hmr, rfl⟩ := hr
  have hmr2 : mr ∈ dd_rows resp.readings := List.mem_of_mem_filter hmr
  rw [mem_dd_rows_iff] at hmr2
  obtain ⟨ym, hym, rfl⟩ := hmr2
  obtain ⟨xb, xsb, -, -, -, h1, h2⟩ := bucketMonths_bounds resp.readings ym hym
  exact mk_isMonthStart ym.1 ym.2 h1 h2

theorem stagedRows_station (remote : String → DT → Except String BmonResponse)
    (df : List DataRow) (row : DataRow) (h : row ∈ stagedRows remote df) :
    ∃ stn staged, stn ∈ uniqueStations df ∧ processStation remote df stn = .ok staged ∧
      row ∈ staged ∧ row.station = stn := by
  unfold stagedRows at h
  rw [List.mem_flatten] at h
  obtain ⟨l, hl, hrow⟩ := h
  rw [List.mem_map] at hl
  obtain ⟨stn, hstn, rfl⟩ := hl
  unfold newRowsFor at hrow
  cases hps : processStation remote df stn with
  | error e =>
    rw [hps] at hrow
    simp [Except.toOption] at hrow
  | ok staged =>
    rw [hps] at hrow
    simp only [Except.toOption, Option.getD_some] at hrow
    exact ⟨stn, staged, hstn, hps, hrow, processStation_station remote df stn staged hps row hrow⟩

theorem stagedRows_isMonthStart (remote : String → DT → Except String BmonResponse)
    (df : List DataRow) (row : DataRow) (h : row ∈ stagedRows remote df) :
    isMonthStart row.month := by
  obtain ⟨stn, staged, -, hps, hrow, -⟩ := stagedRows_station remote df row h
  exact processStation_month_start remote df stn staged hps row hrow

theorem stagedRows_mem (remote : String → DT → Except String BmonResponse)
    (df : List DataRow) (stn : String) (staged : List DataRow)
    (hstn : stn ∈ uniqueStations df) (h : processStation remote df stn = .ok staged) :
    ∀ row ∈ staged, row ∈ stagedRows remote df := by
  intro row hrow
  unfold stagedRows
  rw [List.mem_flatten]
  refine ⟨staged, ?_, hrow⟩
  rw [List.mem_map]
  refine ⟨stn, hstn, ?_⟩
  unfold newRowsFor
  rw [h]
  rfl

theorem df_final_mem (remote : String → DT → Except String BmonResponse)
    (df : List DataRow) (row : DataRow) :
    row ∈ df_final remote df ↔ row ∈ df ∨ row ∈ stagedRows remote df := by
  unfold df_final
  rw [(List.mergeSort_perm _ rowLe).mem_iff, List.mem_append]

theorem mem_station_months (df : List DataRow) (stn : String) (x : DT) :
    (x ∈ (df.filter (fun r => r.station == stn)).map (fun r => r.month)) ↔
      ∃ r ∈ df, r.station = stn ∧ r.month = x := by
  rw [List.mem_map]
  constructor
  · rintro ⟨r, hr, rfl⟩
    have hf := List.mem_filter.1 hr
    exact ⟨r, hf.1, by simpa using hf.2, rfl⟩
  · rintro ⟨r, hr, hs, rfl⟩
    exact ⟨r, List.mem_filter.2 ⟨hr, by simpa using hs⟩, rfl⟩

theorem station_months_ne_nil (df : List DataRow) (stn : String)
    (h : ∃ r ∈ df, r.station = stn) :
    ∃ d ms, (df.filter (fun r => r.station == stn)).map (fun r => r.month) = d :: ms := by
  obtain ⟨r, hr, hs⟩ := h
  cases he : (df.filter (fun r => r.station == stn)).map (fun r => r.month) with
  | nil =>
    exfalso
    have hmem : r.month ∈ (df.filter (fun r => r.station == stn)).map (fun r => r.month) :=
      (mem_station_months df stn r.month).2 ⟨r, hr, hs, rfl⟩
    rw [he] at hmem
    simp at hmem
  | cons d ms => exact ⟨d, ms, rfl⟩

/-! ### Honest-remote lemmas -/

theorem dd_for_site_honest (truth : String → List Reading) (stn : String) (start : DT) :
    dd_for_site (honestRemote truth) stn start =
      .ok (dd_rows ((truth (sensorId stn)).filter
        (fun r => decide (dtMonthIndex start ≤ tsMonthIdx r)))) := rfl

theorem dtMonthIndex_addDays_32 (d : DT) (hv : validDT d) (h1 : d.day = 1) :
    dtMonthIndex (addDays d 32) = dtMonthIndex d + 1 := by
  rw [addDays_32 d hv h1]
  exact dtMonthIndex_nextMonthStart d hv

theorem processStation_honest_eq (truth : String → List Reading) (df : List DataRow)
    (stn : String) (d0 : DT) (ms0 : List DT)
    (hmap : (df.filter (fun r => r.station == stn)).map (fun r => r.month) = d0 :: ms0)
    (hstart : isMonthStart (monthMax d0 ms0)) :
    processStation (honestRemote truth) df stn =
      .ok (((dd_rows ((truth (sensorId stn)).filter
          (fun r => decide (dtMonthIndex (monthMax d0 ms0) + 1 ≤ tsMonthIdx r)))).filter
        (fun r => decide (MIN_COVERAGE < r.coverage))).map (toDataRow stn)) := by
  rw [processStation_eq_cons _ _ _ _ _ hmap]
  rw [dd_for_site_honest]
  simp only [dtMonthIndex_addDays_32 (monthMax d0 ms0) hstart.1 hstart.2.1]
  rfl

theorem dd_rows_month_ge (truthS : List Reading) (s : Nat) (row : MonthRow)
    (hrow : row ∈ dd_rows (truthS.filter (fun r => decide (s ≤ tsMonthIdx r)))) :
    s ≤ dtMonthIndex row.month := by
  rw [mem_dd_rows_iff] at hrow
  obtain ⟨ym, hym, rfl⟩ := hrow
  obtain ⟨x, xs, hmap, hb1, hb2, -, -⟩ := bucketMonths_bounds _ ym hym
  have hall : ∀ i ∈ x :: xs, s ≤ i := by
    intro i hi
    rw [← hmap] at hi
    rw [List.mem_map] at hi
    obtain ⟨r, hr, rfl⟩ := hi
    have := (List.mem_filter.1 hr).2
    exact of_decide_eq_true this
  have hlo : s ≤ loIdx xs x :=
    le_loIdx xs x s (hall x (List.mem_cons_self x xs))
      (fun y hy => hall y (List.mem_cons_of_mem x hy))
  rw [rowFor_month]
  have : dtMonthIndex (⟨ym.1, ym.2, 1, 0⟩ : DT) = monthIndex ym.1 ym.2 := rfl
  rw [this]
  omega

theorem monthTemps_filter_ge (truthS : List Reading) (s y m : Nat)
    (hs : s ≤ monthIndex y m) :
    monthTemps (truthS.filter (fun r => decide (s ≤ tsMonthIdx r))) y m =
      monthTemps truthS y m := by
  unfold monthTemps
  rw [List.filter_filter]
  congr 1
  apply List.filter_congr
  intro r hr
  by_cases hp : (r.ts.year == y && r.ts.month == m) = true
  · rw [hp]
    simp only [Bool.and_eq_true, beq_iff_eq] at hp
    have : tsMonthIdx r = monthIndex y m := by
      unfold tsMonthIdx dtMonthIndex
      rw [hp.1, hp.2]
    simp [this, hs]
  · rw [Bool.not_eq_true] at hp
    rw [hp]
    simp

theorem coverage_pos_ne_nil (R : List Reading) (ym : Nat × Nat)
    (hcov : MIN_COVERAGE < (rowFor R ym).coverage) :
    monthTemps R ym.1 ym.2 ≠ [] := by
  intro hc
  rw [rowFor_coverage, hc] at hcov
  norm_num [MIN_COVERAGE] at hcov

/-! ### Claim C6 -/

/-- C6: the persisted final dataset is a permutation of the existing
records together with all staged new records, and it is sorted ascending by
station and then by month: for any two rows in order, the first has the
lexicographically smaller station code, or the same station and a
no-later month. -/
theorem claim_C6 (remote : String → DT → Except String BmonResponse)
    (df_exist : List DataRow) :
    (df_final remote df_exist).Perm (df_exist ++ stagedRows remote df_exist) ∧
    (df_final remote df_exist).Pairwise
      (fun a b => strLt a.station b.station = true ∨
        (a.station = b.station ∧ dtLe a.month b.month = true)) := by
  constructor
  · unfold df_final
    exact List.mergeSort_perm _ rowLe
  · have hp := List.sorted_mergeSort rowLe_trans rowLe_total
      (df_exist ++ stagedRows remote df_exist)
    unfold df_final
    refine List.Pairwise.imp ?_ hp
    intro a b hab
    unfold rowLe at hab
    by_cases he : a.station = b.station
    · rw [if_pos he] at hab
      exact Or.inr ⟨he, hab⟩
    · rw [if_neg he] at hab
      exact Or.inl hab

/-! ### Claim C3 -/

/-- C3: for every station the merger processes without an exception, there
is a months table the aggregator returned for it, and a month of that table
is staged for appending if and only if its coverage is strictly greater
than `MIN_COVERAGE` (0.7): the staged records are exactly the rows passing
the strict filter, converted to persisted form, and every staged record
appears in the final dataset. -/
theorem claim_C3 (remote : String → DT → Except String BmonResponse)
    (df : List DataRow) (stn : String) (staged : List DataRow)
    (hstn : stn ∈ uniqueStations df) (hok : processStation remote df stn = .ok staged) :
    ∃ d ms rows,
      (df.filter (fun r => r.station == stn)).map (fun r => r.month) = d :: ms ∧
      dd_for_site remote stn (addDays (monthMax d ms) 32) = .ok rows ∧
      staged = (rows.filter (fun r => decide (MIN_COVERAGE < r.coverage))).map (toDataRow stn) ∧
      (∀ r ∈ rows, (toDataRow stn r ∈ staged ↔ MIN_COVERAGE < r.coverage)) ∧
      (∀ r ∈ staged, r ∈ df_final remote df) := by
  obtain ⟨d, ms, rows, hmap, hdd, hstaged⟩ := processStation_ok remote df stn staged hok
  refine ⟨d, ms, rows, hmap, hdd, hstaged, ?_, ?_⟩
  · intro r hr
    constructor
    · intro hmem
      rw [hstaged, List.mem_map] at hmem
      obtain ⟨r2, hr2, he⟩ := hmem
      have hr2rows : r2 ∈ rows := List.mem_of_mem_filter hr2
      have hcov2 : MIN_COVERAGE < r2.coverage :=
        of_decide_eq_true (List.mem_filter.1 hr2).2
      have hm : r2.month = r.month := congrArg DataRow.month he
      obtain ⟨resp, hresp, hs, hrowseq⟩ := dd_for_site_ok remote stn _ rows hdd
      have hnd := dd_rows_months_nodup resp.readings
      rw [← hrowseq] at hnd
      have he2 : r2 = r := List.inj_on_of_nodup_map hnd hr2rows hr hm
      rw [← he2]
      exact hcov2
    · intro hcov
      rw [hstaged]
      exact List.mem_map_of_mem _ (List.mem_filter.2 ⟨hr, decide_eq_true hcov⟩)
  · intro r hr
    rw [df_final_mem]
    exact Or.inr (stagedRows_mem remote df stn staged hstn hok r hr)

theorem claim_C3_witness :
    ("PAED" ∈ uniqueStations oneStationDf ∧
      processStation (honestRemote emptyStore) oneStationDf "PAED" = .ok []) ∧
    (∃ d ms rows,
      (oneStationDf.filter (fun r => r.station == "PAED")).map (fun r => r.month) = d :: ms ∧
      dd_for_site (honestRemote emptyStore) "PAED" (addDays (monthMax d ms) 32) = .ok rows ∧
      ([] : List DataRow) =
        (rows.filter (fun r => decide (MIN_COVERAGE < r.coverage))).map (toDataRow "PAED") ∧
      (∀ r ∈ rows, (toDataRow "PAED" r ∈ ([] : List DataRow) ↔ MIN_COVERAGE < r.coverage)) ∧
      (∀ r ∈ ([] : List DataRow), r ∈ df_final (honestRemote emptyStore) oneStationDf)) :=
  ⟨⟨by decide, by decide⟩,
    claim_C3 (honestRemote emptyStore) oneStationDf "PAED" [] (by decide) (by decide)⟩

/-! ### Claim C4 -/

/-- C4: if processing one station raises any error, the run still completes
with a console line identifying that station and the error, the final
dataset's rows for the failed station are exactly the existing ones, and
every record staged by any successfully processed station still appears in
the final dataset. -/
theorem claim_C4 (remote : String → DT → Except String BmonResponse)
    (df : List DataRow) (stnX : String) (e : String)
    (hstn : stnX ∈ uniqueStations df)
    (herr : processStation remote df stnX = .error e) :
    (("Processing " ++ stnX ++ ": " ++ e) ∈ (runMerger remote df).snd) ∧
    (((runMerger remote df).fst.filter (fun r => r.station == stnX)).Perm
      (df.filter (fun r => r.station == stnX))) ∧
    (∀ stnY staged, stnY ∈ uniqueStations df →
      processStation remote df stnY = .ok staged →
      ∀ r ∈ staged, r ∈ (runMerger remote df).fst) := by
  refine ⟨?_, ?_, ?_⟩
  · show ("Processing " ++ stnX ++ ": " ++ e) ∈ runLog remote df
    unfold runLog
    rw [List.mem_map]
    refine ⟨stnX, hstn, ?_⟩
    rw [herr]
    rfl
  · have hperm : (df_final remote df).Perm (df ++ stagedRows remote df) := by
      unfold df_final
      exact List.mergeSort_perm _ rowLe
    have hfil := hperm.filter (fun r => r.station == stnX)
    rw [List.filter_append] at hfil
    have hnone : (stagedRows remote df).filter (fun r => r.station == stnX) = [] := by
      rw [List.filter_eq_nil_iff]
      intro row hrow hbeq
      have hst : row.station = stnX := by simpa using hbeq
      obtain ⟨stn, staged, hstn2, hps, hrowst, hstation⟩ := stagedRows_station remote df row hrow
      rw [hstation] at hst
      rw [hst] at hps
      rw [hps] at herr
      exact absurd herr (by simp)
    rw [hnone, List.append_nil] at hfil
    exact hfil
  · intro stnY staged hstnY hok r hr
    show r ∈ df_final remote df
    rw [df_final_mem]
    exact Or.inr (stagedRows_mem remote df stnY staged hstnY hok r hr)

theorem claim_C4_witness :
    ("PAXX" ∈ uniqueStations twoStationDf ∧
      processStation mixedRemote twoStationDf "PAXX" = .error "ConnectionError") ∧
    ((("Processing " ++ "PAXX" ++ ": " ++ "ConnectionError") ∈
        (runMerger mixedRemote twoStationDf).snd) ∧
      (((runMerger mixedRemote twoStationDf).fst.filter (fun r => r.station == "PAXX")).Perm
        (twoStationDf.filter (fun r => r.station == "PAXX"))) ∧
      (∀ stnY staged, stnY ∈ uniqueStations twoStationDf →
        processStation mixedRemote twoStationDf stnY = .ok staged →
        ∀ r ∈ staged, r ∈ (runMerger mixedRemote twoStationDf).fst)) :=
  ⟨⟨by decide, by decide⟩,
    claim_C4 mixedRemote twoStationDf "PAXX" "ConnectionError" (by decide) (by decide)⟩

/-! ### Key-uniqueness and idempotence machinery -/

theorem run2_filter_nil (truthS : List Reading) (s1 s2 : Nat) (hle : s1 ≤ s2)
    (hqual : ∀ ym : Nat × Nat, 1 ≤ ym.2 → ym.2 ≤ 12 →
      monthTemps truthS ym.1 ym.2 ≠ [] →
      MIN_COVERAGE < (rowFor (truthS.filter (fun r => decide (s1 ≤ tsMonthIdx r))) ym).coverage →
      monthIndex ym.1 ym.2 < s2) :
    (dd_rows (truthS.filter (fun r => decide (s2 ≤ tsMonthIdx r)))).filter
      (fun r => decide (MIN_COVERAGE < r.coverage)) = [] := by
  rw [List.filter_eq_nil_iff]
  intro row hrow hdec
  have hcov : MIN_COVERAGE < row.coverage := of_decide_eq_true hdec
  have hge := dd_rows_month_ge truthS s2 row hrow
  rw [mem_dd_rows_iff] at hrow
  obtain ⟨ym, hym, rfl⟩ := hrow
  obtain ⟨x2, xs2, -, -, -, hym1, hym2⟩ := bucketMonths_bounds _ ym hym
  rw [rowFor_month] at hge
  have hge2 : s2 ≤ monthIndex ym.1 ym.2 := hge
  have hne2 := coverage_pos_ne_nil _ ym hcov
  have he2 := monthTemps_filter_ge truthS s2 ym.1 ym.2 hge2
  have he1 := monthTemps_filter_ge truthS s1 ym.1 ym.2 (le_trans hle hge2)
  have hnetruth : monthTemps truthS ym.1 ym.2 ≠ [] := by
    rw [he2] at hne2
    exact hne2
  have hcov1 : MIN_COVERAGE <
      (rowFor (truthS.filter (fun r => decide (s1 ≤ tsMonthIdx r))) ym).coverage := by
    rw [rowFor_coverage] at hcov ⊢
    rw [he1]
    rw [he2] at hcov
    exact hcov
  have := hqual ym hym1 hym2 hnetruth hcov1
  omega

theorem staged_month_gt (truth : String → List Reading) (df : List DataRow)
    (stn : String) (staged : List DataRow)
    (hgood : ∀ r ∈ df, isMonthStart r.month)
    (hok : processStation (honestRemote truth) df stn = .ok staged) :
    ∀ row ∈ staged, ∀ r0 ∈ df, r0.station = stn →
      dtMonthIndex r0.month < dtMonthIndex row.month := by
  obtain ⟨d0, ms0, rows, hmap, hdd, hstagedeq⟩ := processStation_ok _ _ _ _ hok
  have hmaxmem : monthMax d0 ms0 ∈
      (df.filter (fun r => r.station == stn)).map (fun r => r.month) := by
    rw [hmap]
    exact (monthMax_spec ms0 d0).1
  have hmaxstart : isMonthStart (monthMax d0 ms0) := by
    obtain ⟨r2, hr2, -, hm2⟩ := (mem_station_months df stn _).1 hmaxmem
    rw [← hm2]
    exact hgood r2 hr2
  rw [dd_for_site_honest] at hdd
  have hrows : rows = dd_rows ((truth (sensorId stn)).filter
      (fun r => decide (dtMonthIndex (addDays (monthMax d0 ms0) 32) ≤ tsMonthIdx r))) := by
    injection hdd with h
    exact h.symm
  intro row hrow r0 hr0 hr0s
  rw [hstagedeq, List.mem_map] at hrow
  obtain ⟨mr, hmr, rfl⟩ := hrow
  have hmrge : dtMonthIndex (addDays (monthMax d0 ms0) 32) ≤ dtMonthIndex mr.month := by
    apply dd_rows_month_ge
    rw [← hrows]
    exact List.mem_of_mem_filter hmr
  rw [dtMonthIndex_addDays_32 _ hmaxstart.1 hmaxstart.2.1] at hmrge
  have hr0mem : r0.month ∈ d0 :: ms0 := by
    rw [← hmap]
    exact (mem_station_months df stn _).2 ⟨r0, hr0, hr0s, rfl⟩
  have hr0le := (monthMax_spec ms0 d0).2 _ hr0mem
  have hr0idx : dtMonthIndex r0.month ≤ dtMonthIndex (monthMax d0 ms0) :=
    (isMonthStart_le_iff _ _ (hgood r0 hr0) hmaxstart).1 hr0le
  show dtMonthIndex r0.month < dtMonthIndex mr.month
  omega

theorem processStation_keys_nodup (remote : String → DT → Except String BmonResponse)
    (df : List DataRow) (stn : String) (staged : List DataRow)
    (h : processStation remote df stn = .ok staged) :
    (staged.map (fun r => (r.station, r.month))).Nodup := by
  obtain ⟨d, ms, rows, hmap, hdd, rfl⟩ := processStation_ok _ _ _ _ h
  obtain ⟨resp, -, -, rfl⟩ := dd_for_site_ok _ _ _ _ hdd
  rw [List.map_map]
  have he : ((fun r : DataRow => (r.station, r.month)) ∘ toDataRow stn) =
      fun mr : MonthRow => (stn, mr.month) := rfl
  rw [he]
  have he2 : (fun mr : MonthRow => (stn, mr.month)) =
      (Prod.mk stn ∘ fun mr : MonthRow => mr.month) := rfl
  rw [he2, ← List.map_map]
  refine List.Nodup.map ?_ ?_
  · intro a b hab
    exact congrArg Prod.snd hab
  · refine List.Nodup.sublist ?_ (dd_rows_months_nodup resp.readings)
    exact List.Sublist.map _ (List.filter_sublist _)

theorem newRows_keys_fst (remote : String → DT → Except String BmonResponse)
    (df : List DataRow) (stn : String) :
    ∀ k ∈ (newRowsFor remote df stn).map (fun r => (r.station, r.month)), k.1 = stn := by
  intro k hk
  rw [List.mem_map] at hk
  obtain ⟨r, hr, rfl⟩ := hk
  unfold newRowsFor at hr
  cases hps : processStation remote df stn with
  | error e =>
    rw [hps] at hr
    simp [Except.toOption] at hr
  | ok staged =>
    rw [hps] at hr
    simp only [Except.toOption, Option.getD_some] at hr
    exact processStation_station _ _ _ _ hps r hr

theorem newRows_keys_nodup (remote : String → DT → Except String BmonResponse)
    (df : List DataRow) (stn : String) :
    ((newRowsFor remote df stn).map (fun r => (r.station, r.month))).Nodup := by
  unfold newRowsFor
  cases hps : processStation remote df stn with
  | error e => simp [Except.toOption]
  | ok staged =>
    simp only [Except.toOption, Option.getD_some]
    exact processStation_keys_nodup _ _ _ _ hps

theorem run2_processStation_empty (truth : String → List Reading) (df0 : List DataRow)
    (hgood : ∀ r ∈ df0, isMonthStart r.month) (stn : String)
    (hstn : stn ∈ uniqueStations (df_final (honestRemote truth) df0)) :
    processStation (honestRemote truth) (df_final (honestRemote truth) df0) stn = .ok [] := by
  obtain ⟨r1, hr1, hr1s⟩ := (uniqueStations_mem _ stn).1 hstn
  have hgood1 : ∀ r ∈ df_final (honestRemote truth) df0, isMonthStart r.month := by
    intro r hr
    rcases (df_final_mem _ _ r).1 hr with h0 | hsg
    · exact hgood r h0
    · exact stagedRows_isMonthStart _ _ r hsg
  obtain ⟨d1, ms1, hmap1⟩ := station_months_ne_nil _ stn ⟨r1, hr1, hr1s⟩
  have hmax1mem : monthMax d1 ms1 ∈
      ((df_final (honestRemote truth) df0).filter (fun r => r.station == stn)).map
        (fun r => r.month) := by
    rw [hmap1]
    exact (monthMax_spec ms1 d1).1
  have hlast1start : isMonthStart (monthMax d1 ms1) := by
    obtain ⟨r2, hr2, -, hm2⟩ := (mem_station_months _ stn _).1 hmax1mem
    rw [← hm2]
    exact hgood1 r2 hr2
  have hstn0 : stn ∈ uniqueStations df0 := by
    rw [uniqueStations_mem]
    rcases (df_final_mem _ _ r1).1 hr1 with h0 | hsg
    · exact ⟨r1, h0, hr1s⟩
    · obtain ⟨stn2, staged2, hstn2, hps2, hrow2, hstation2⟩ := stagedRows_station _ _ r1 hsg
      have he : stn2 = stn := hstation2.symm.trans hr1s
      rw [uniqueStations_mem] at hstn2
      obtain ⟨r0, hr0, hr0s⟩ := hstn2
      exact ⟨r0, hr0, hr0s.trans he⟩
  obtain ⟨rr0, hrr0, hrr0s⟩ := (uniqueStations_mem df0 stn).1 hstn0
  obtain ⟨d0, ms0, hmap0⟩ := station_months_ne_nil df0 stn ⟨rr0, hrr0, hrr0s⟩
  have hmax0mem : monthMax d0 ms0 ∈
      (df0.filter (fun r => r.station == stn)).map (fun r => r.month) := by
    rw [hmap0]
    exact (monthMax_spec ms0 d0).1
  have hlast0start : isMonthStart (monthMax d0 ms0) := by
    obtain ⟨r2, hr2, -, hm2⟩ := (mem_station_months df0 stn _).1 hmax0mem
    rw [← hm2]
    exact hgood r2 hr2
  have hrun1 := processStation_honest_eq truth df0 stn d0 ms0 hmap0 hlast0start
  have hs1le : dtMonthIndex (monthMax d0 ms0) ≤ dtMonthIndex (monthMax d1 ms1) := by
    obtain ⟨r2, hr2, hs2, hm2⟩ := (mem_station_months df0 stn _).1 hmax0mem
    have hr2df1 : r2 ∈ df_final (honestRemote truth) df0 :=
      (df_final_mem _ _ r2).2 (Or.inl hr2)
    have hmm : monthMax d0 ms0 ∈ d1 :: ms1 := by
      rw [← hmap1]
      exact (mem_station_months _ stn _).2 ⟨r2, hr2df1, hs2, hm2⟩
    exact (isMonthStart_le_iff _ _ hlast0start hlast1start).1 ((monthMax_spec ms1 d1).2 _ hmm)
  have hqual : ∀ ym : Nat × Nat, 1 ≤ ym.2 → ym.2 ≤ 12 →
      monthTemps (truth (sensorId stn)) ym.1 ym.2 ≠ [] →
      MIN_COVERAGE < (rowFor ((truth (sensorId stn)).filter
        (fun r => decide (dtMonthIndex (monthMax d0 ms0) + 1 ≤ tsMonthIdx r))) ym).coverage →
      monthIndex ym.1 ym.2 < dtMonthIndex (monthMax d1 ms1) + 1 := by
    intro ym hym1 hym2 hnetruth hcov1
    have hne1 : monthTemps ((truth (sensorId stn)).filter
        (fun r => decide (dtMonthIndex (monthMax d0 ms0) + 1 ≤ tsMonthIdx r))) ym.1 ym.2 ≠ [] :=
      coverage_pos_ne_nil _ ym hcov1
    have hmemb := mem_monthTemps_bucket _ ym.1 ym.2 hym1 hym2 hne1
    rw [Prod.mk.eta] at hmemb
    have hstaged1 : toDataRow stn (rowFor ((truth (sensorId stn)).filter
        (fun r => decide (dtMonthIndex (monthMax d0 ms0) + 1 ≤ tsMonthIdx r))) ym) ∈
        ((dd_rows ((truth (sensorId stn)).filter
          (fun r => decide (dtMonthIndex (monthMax d0 ms0) + 1 ≤ tsMonthIdx r)))).filter
          (fun r => decide (MIN_COVERAGE < r.coverage))).map (toDataRow stn) := by
      apply List.mem_map_of_mem
      exact List.mem_filter.2 ⟨List.mem_map_of_mem _ hmemb, decide_eq_true hcov1⟩
    have hinstaged := stagedRows_mem _ df0 stn _ hstn0 hrun1 _ hstaged1
    have hindf1 := (df_final_mem (honestRemote truth) df0 _).2 (Or.inr hinstaged)
    have hmonmem : (⟨ym.1, ym.2, 1, 0⟩ : DT) ∈ d1 :: ms1 := by
      rw [← hmap1]
      exact (mem_station_months _ stn _).2 ⟨_, hindf1, rfl, rfl⟩
    have hidxle : dtMonthIndex (⟨ym.1, ym.2, 1, 0⟩ : DT) ≤ dtMonthIndex (monthMax d1 ms1) :=
      (isMonthStart_le_iff _ _ (mk_isMonthStart ym.1 ym.2 hym1 hym2) hlast1start).1
        ((monthMax_spec ms1 d1).2 _ hmonmem)
    have hdefeq : dtMonthIndex (⟨ym.1, ym.2, 1, 0⟩ : DT) = monthIndex ym.1 ym.2 := rfl
    omega
  rw [processStation_honest_eq truth _ stn d1 ms1 hmap1 hlast1start,
    run2_filter_nil (truth (sensorId stn)) (dtMonthIndex (monthMax d0 ms0) + 1)
      (dtMonthIndex (monthMax d1 ms1) + 1) (by omega) hqual]
  rfl

/-! ### Claim C5 -/

/-- C5: with an unchanged honest remote store, running the merger a second
time on the dataset the first run persisted reproduces that dataset exactly
(no duplicate rows, no reordering); and a run preserves the at-most-one
record per (station, month) invariant. -/
theorem claim_C5 (truth : String → List Reading) (df0 : List DataRow)
    (hgood : ∀ r ∈ df0, isMonthStart r.month) :
    df_final (honestRemote truth) (df_final (honestRemote truth) df0) =
      df_final (honestRemote truth) df0 ∧
    (keyUnique df0 → keyUnique (df_final (honestRemote truth) df0)) := by
  constructor
  · have hempty : stagedRows (honestRemote truth) (df_final (honestRemote truth) df0) = [] := by
      unfold stagedRows
      rw [List.flatten_eq_nil_iff]
      intro l hl
      rw [List.mem_map] at hl
      obtain ⟨stn, hstn, rfl⟩ := hl
      unfold newRowsFor
      rw [run2_processStation_empty truth df0 hgood stn hstn]
      rfl
    have he1 : df_final (honestRemote truth) (df_final (honestRemote truth) df0) =
        (df_final (honestRemote truth) df0 ++
          stagedRows (honestRemote truth) (df_final (honestRemote truth) df0)).mergeSort
            rowLe := rfl
    rw [he1, hempty, List.append_nil]
    apply List.mergeSort_of_sorted
    have he2 : df_final (honestRemote truth) df0 =
        (df0 ++ stagedRows (honestRemote truth) df0).mergeSort rowLe := rfl
    rw [he2]
    exact List.sorted_mergeSort rowLe_trans rowLe_total _
  · intro hq
    unfold keyUnique at hq ⊢
    have hperm : (df_final (honestRemote truth) df0).Perm
        (df0 ++ stagedRows (honestRemote truth) df0) := by
      show ((df0 ++ stagedRows (honestRemote truth) df0).mergeSort rowLe).Perm _
      exact List.mergeSort_perm _ _
    rw [(hperm.map (fun r => (r.station, r.month))).nodup_iff]
    rw [List.map_append, List.nodup_append]
    refine ⟨hq, ?_, ?_⟩
    · unfold stagedRows
      rw [List.map_flatten, List.nodup_flatten]
      constructor
      · intro l hl
        rw [List.map_map, List.mem_map] at hl
        obtain ⟨stn, hstn, rfl⟩ := hl
        exact newRows_keys_nodup _ _ _
      · rw [List.map_map, List.pairwise_map]
        have hnd := uniqueStations_nodup df0
        refine List.Pairwise.imp ?_ hnd
        intro a b hab
        intro k hk1 hk2
        have h1 := newRows_keys_fst (honestRemote truth) df0 a k hk1
        have h2 := newRows_keys_fst (honestRemote truth) df0 b k hk2
        exact hab (h1.symm.trans h2)
    · intro k hk1 hk2
      rw [List.mem_map] at hk1 hk2
      obtain ⟨r0, hr0, hk0⟩ := hk1
      obtain ⟨row, hrow, hkrow⟩ := hk2
      obtain ⟨stn, staged, hstn, hps, hrowst, hstation⟩ := stagedRows_station _ _ row hrow
      have hkeq : (r0.station, r0.month) = (row.station, row.month) := hk0.trans hkrow.symm
      have hse : r0.station = row.station := congrArg Prod.fst hkeq
      have hme : r0.month = row.month := congrArg Prod.snd hkeq
      have hgt := staged_month_gt truth df0 stn staged hgood hps row hrowst r0 hr0
        (hse.trans hstation)
      rw [hme] at hgt
      omega

theorem claim_C5_witness :
    (∀ r ∈ oneStationDf, isMonthStart r.month) ∧
    (df_final (honestRemote emptyStore) (df_final (honestRemote emptyStore) oneStationDf) =
        df_final (honestRemote emptyStore) oneStationDf ∧
      (keyUnique oneStationDf → keyUnique (df_final (honestRemote emptyStore) oneStationDf))) :=
  ⟨by decide, claim_C5 emptyStore oneStationDf (by decide)⟩
